import Mathlib

/-!
Verification of the boot-record protocol encoder in `hex2boot.py`.

The definitions below are a shallow embedding of the program:
* the CRC-16/XMODEM checksum engine (`CRC16_XMODEM_TABLE`, `crc16`);
* the record encoder (`bin_ident` .. `bin_runapp`, with records abstracted
  as the inductive `BRec` and serialised by `encode`);
* the device map and region planner (`regions`, `get_regions`);
* the image translator (`mem2boot`), the range-erase translator
  (`erase2boot`) and the session orchestrator (`hex2boot`).

Firmware images come from the external `intelhex` collaborator; they are
modelled per the design contract as sparse byte maps over the 16-bit
address space (`Image`), with the operations the program uses: sorted
populated-address listing (`addresses`), padded reads (`readByte`,
`tobinstr`, pad value 0xFF), slicing (`sliceIH`, half-open upper bound as
in Python slices) and point update (`setByte`).
-/

namespace Hex2boot

/-- The precomputed table `_CRC16_XMODEM_TABLE` from the source (256 entries). -/
def CRC16_XMODEM_TABLE : List Nat := [
  0x0000, 0x1021, 0x2042, 0x3063, 0x4084, 0x50a5, 0x60c6, 0x70e7,
  0x8108, 0x9129, 0xa14a, 0xb16b, 0xc18c, 0xd1ad, 0xe1ce, 0xf1ef,
  0x1231, 0x0210, 0x3273, 0x2252, 0x52b5, 0x4294, 0x72f7, 0x62d6,
  0x9339, 0x8318, 0xb37b, 0xa35a, 0xd3bd, 0xc39c, 0xf3ff, 0xe3de,
  0x2462, 0x3443, 0x0420, 0x1401, 0x64e6, 0x74c7, 0x44a4, 0x5485,
  0xa56a, 0xb54b, 0x8528, 0x9509, 0xe5ee, 0xf5cf, 0xc5ac, 0xd58d,
  0x3653, 0x2672, 0x1611, 0x0630, 0x76d7, 0x66f6, 0x5695, 0x46b4,
  0xb75b, 0xa77a, 0x9719, 0x8738, 0xf7df, 0xe7fe, 0xd79d, 0xc7bc,
  0x48c4, 0x58e5, 0x6886, 0x78a7, 0x0840, 0x1861, 0x2802, 0x3823,
  0xc9cc, 0xd9ed, 0xe98e, 0xf9af, 0x8948, 0x9969, 0xa90a, 0xb92b,
  0x5af5, 0x4ad4, 0x7ab7, 0x6a96, 0x1a71, 0x0a50, 0x3a33, 0x2a12,
  0xdbfd, 0xcbdc, 0xfbbf, 0xeb9e, 0x9b79, 0x8b58, 0xbb3b, 0xab1a,
  0x6ca6, 0x7c87, 0x4ce4, 0x5cc5, 0x2c22, 0x3c03, 0x0c60, 0x1c41,
  0xedae, 0xfd8f, 0xcdec, 0xddcd, 0xad2a, 0xbd0b, 0x8d68, 0x9d49,
  0x7e97, 0x6eb6, 0x5ed5, 0x4ef4, 0x3e13, 0x2e32, 0x1e51, 0x0e70,
  0xff9f, 0xefbe, 0xdfdd, 0xcffc, 0xbf1b, 0xaf3a, 0x9f59, 0x8f78,
  0x9188, 0x81a9, 0xb1ca, 0xa1eb, 0xd10c, 0xc12d, 0xf14e, 0xe16f,
  0x1080, 0x00a1, 0x30c2, 0x20e3, 0x5004, 0x4025, 0x7046, 0x6067,
  0x83b9, 0x9398, 0xa3fb, 0xb3da, 0xc33d, 0xd31c, 0xe37f, 0xf35e,
  0x02b1, 0x1290, 0x22f3, 0x32d2, 0x4235, 0x5214, 0x6277, 0x7256,
  0xb5ea, 0xa5cb, 0x95a8, 0x8589, 0xf56e, 0xe54f, 0xd52c, 0xc50d,
  0x34e2, 0x24c3, 0x14a0, 0x0481, 0x7466, 0x6447, 0x5424, 0x4405,
  0xa7db, 0xb7fa, 0x8799, 0x97b8, 0xe75f, 0xf77e, 0xc71d, 0xd73c,
  0x26d3, 0x36f2, 0x0691, 0x16b0, 0x6657, 0x7676, 0x4615, 0x5634,
  0xd94c, 0xc96d, 0xf90e, 0xe92f, 0x99c8, 0x89e9, 0xb98a, 0xa9ab,
  0x5844, 0x4865, 0x7806, 0x6827, 0x18c0, 0x08e1, 0x3882, 0x28a3,
  0xcb7d, 0xdb5c, 0xeb3f, 0xfb1e, 0x8bf9, 0x9bd8, 0xabbb, 0xbb9a,
  0x4a75, 0x5a54, 0x6a37, 0x7a16, 0x0af1, 0x1ad0, 0x2ab3, 0x3a92,
  0xfd2e, 0xed0f, 0xdd6c, 0xcd4d, 0xbdaa, 0xad8b, 0x9de8, 0x8dc9,
  0x7c26, 0x6c07, 0x5c64, 0x4c45, 0x3ca2, 0x2c83, 0x1ce0, 0x0cc1,
  0xef1f, 0xff3e, 0xcf5d, 0xdf7c, 0xaf9b, 0xbfba, 0x8fd9, 0x9ff8,
  0x6e17, 0x7e36, 0x4e55, 0x5e74, 0x2e93, 0x3eb2, 0x0ed1, 0x1ef0]

/-- The loop body of `crc16`:
`crc = ((crc<<8) & 0xff00) ^ table[((crc>>8) & 0xff) ^ byte]`. -/
def crcStep (crc byte : Nat) : Nat :=
  ((crc <<< 8) &&& 0xff00) ^^^ CRC16_XMODEM_TABLE.getD (((crc >>> 8) &&& 0xff) ^^^ byte) 0

/-- `crc16(data, crc=0)` from the source: fold the table step over the bytes,
then mask the result to 16 bits (`return crc & 0xffff`). -/
def crc16 (data : List Nat) (crc : Nat := 0) : Nat :=
  (data.foldl crcStep crc) &&& 0xffff

/-- Modelled from the spec: one shift of the bit-level CRC-16/XMODEM reference
(polynomial 0x1021, most-significant-bit first, 16-bit state). -/
def refBitStep (crc : Nat) : Nat :=
  if crc &&& 0x8000 ≠ 0 then ((crc <<< 1) ^^^ 0x1021) &&& 0xffff
  else (crc <<< 1) &&& 0xffff

/-- Eight reference bit shifts (one input byte's worth). -/
def refBits8 (x : Nat) : Nat :=
  refBitStep (refBitStep (refBitStep (refBitStep
    (refBitStep (refBitStep (refBitStep (refBitStep x)))))))

/-- Modelled from the spec: the bit-level reference absorbs one byte by
xoring it into the high half of the state and shifting eight times. -/
def refByteStep (crc byte : Nat) : Nat := refBits8 (crc ^^^ (byte <<< 8))

/-- Modelled from the spec: bit-level CRC-16/XMODEM over a byte sequence,
caller-supplied initial value, no reflection, no final xor. -/
def crc16_ref (data : List Nat) (crc : Nat) : Nat := data.foldl refByteStep crc

/-- Value the 256-entry table must hold at index `i`: eight reference shifts
applied to `i <<< 8`. -/
def tableEntryRef (i : Nat) : Nat := refBits8 (i <<< 8)

/-- Big-endian 16-bit serialisation, as produced by `struct` format `H`
for an in-range value. -/
def u16be (x : Nat) : List Nat := [x / 256 % 256, x % 256]

/-- `bin_ident`: `S_IDENT.pack(FSB, 3, 0x30, blid)` with `S_IDENT = '>cBBH'`. -/
def bin_ident (blid : Nat) : List Nat := 0x24 :: 3 :: 0x30 :: u16be blid

/-- `bin_setup`: `S_SETUP.pack(FSB, 4, 0x31, keys, bank)` with `S_SETUP = '>cBBHB'`. -/
def bin_setup (bank : Nat) (keys : Nat := 0xA5F1) : List Nat :=
  0x24 :: 4 :: 0x31 :: (u16be keys ++ [bank % 256])

/-- `bin_erase`: `S_ERASE.pack(FSB, 3+len(data), 0x32, addr) + data`. -/
def bin_erase (addr : Nat) (data : List Nat := []) : List Nat :=
  0x24 :: (3 + data.length) :: 0x32 :: (u16be addr ++ data)

/-- `bin_write`: `S_WRITE.pack(FSB, 3+len(data), 0x33, addr) + data`. -/
def bin_write (addr : Nat) (data : List Nat) : List Nat :=
  0x24 :: (3 + data.length) :: 0x33 :: (u16be addr ++ data)

/-- `bin_verify`: `S_VERIFY.pack(FSB, 7, 0x34, org, end, crc)` with `'>cBBHHH'`. -/
def bin_verify (org stop crc : Nat) : List Nat :=
  0x24 :: 7 :: 0x34 :: (u16be org ++ u16be stop ++ u16be crc)

/-- `bin_lock`: `S_LOCK.pack(FSB, 3, 0x35, lock)`. -/
def bin_lock (lockv : Nat) : List Nat := 0x24 :: 3 :: 0x35 :: u16be lockv

/-- `bin_runapp`: `S_RUNAPP.pack(FSB, 3, 0x36, option)` with default option 0. -/
def bin_runapp (opt : Nat := 0) : List Nat := 0x24 :: 3 :: 0x36 :: u16be opt

/-- A command record, one per `brec.write`-able unit the program builds.
The byte-exact serialisation is `encode` below. -/
inductive BRec where
  | ident (blid : Nat)
  | setup (keys bank : Nat)
  | erase (addr : Nat) (data : List Nat)
  | write (addr : Nat) (data : List Nat)
  | verify (org stop crc : Nat)
  | lock (lockv : Nat)
  | runapp (opt : Nat)
  deriving DecidableEq

/-- Serialise one record with the corresponding `bin_*` constructor. -/
def encode : BRec → List Nat
  | BRec.ident v => bin_ident v
  | BRec.setup keys bank => bin_setup bank keys
  | BRec.erase addr data => bin_erase addr data
  | BRec.write addr data => bin_write addr data
  | BRec.verify org stop crc => bin_verify org stop crc
  | BRec.lock v => bin_lock v
  | BRec.runapp opt => bin_runapp opt

/-- The byte stream a record sequence puts on the sink. -/
def outputBytes (rs : List BRec) : List Nat := (rs.map encode).flatten

/-- An image: an address-indexed sparse byte mapping over the 16-bit
address space (the `intelhex` collaborator's data model). -/
def Image : Type := Nat → Option Nat

/-- `ih.addresses()`: the sorted list of populated addresses. -/
def addresses (ih : Image) : List Nat :=
  (List.range 65536).filter fun a => (ih a).isSome

/-- `ih[a]` as a single-byte read: the populated byte, or the pad value 0xFF. -/
def readByte (ih : Image) (a : Nat) : Nat := (ih a).getD 0xFF

/-- `ih.tobinstr(start=start, size=size)`: `size` bytes from `start`,
unpopulated positions filled with the pad value 0xFF. -/
def tobinstr (ih : Image) (start size : Nat) : List Nat :=
  (List.range size).map fun i => readByte ih (start + i)

/-- `ih[slice(start, stop)]`: the sub-image keeping the populated addresses
in the half-open window `start <= a < stop` (Python slice bounds). -/
def sliceIH (ih : Image) (start stop : Nat) : Image :=
  fun a => if start ≤ a ∧ a < stop then ih a else none

/-- `ih[a] = v`: point update of an image. -/
def setByte (ih : Image) (a v : Nat) : Image :=
  fun x => if x = a then some v else ih x

/-- The device map table `regions(type)` from the source, keyed by the
optional map name; any other key falls to the `.get` default. -/
def regions (t : Option String) : List (Nat × Nat × Nat) :=
  if t = some ("bb2") then [(0x0000, 0x3DFF, 512), (0xF800, 0xFBBF, 64)]
  else if t = some ("bb50") then [(0x0000, 0x37FF, 2048)]
  else if t = some ("bb51") then [(0x0000, 0x37FF, 2048)]
  else if t = some ("bb52") then [(0x0000, 0x77FF, 2048)]
  else if t = some ("sb2") then [(0x0000, 0xF7FF, 1024)]
  else if t = some ("ub1") then [(0x0000, 0x3DFF, 512), (0xF800, 0xFBBF, 64)]
  else [(0x0000, 0xFBFF, 512)]

/-- The loop of `get_regions`: clip each declared region `(start, stop, page)`
to the window `[org, top]`, keeping it only when `max org start < min top stop`. -/
def clipRegions (org top : Nat) : List (Nat × Nat × Nat) → List (Nat × Nat × Nat)
  | [] => []
  | (start, stop, page) :: rest =>
    if max org start < min top stop then
      (max org start, min top stop, page) :: clipRegions org top rest
    else clipRegions org top rest

/-- `get_regions(org, top, type)` from the source. -/
def get_regions (org top : Nat) (t : Option String) : List (Nat × Nat × Nat) :=
  clipRegions org top (regions t)

/-- Python `range(lo, hi, step)` for a positive step. -/
def pyRange (lo hi step : Nat) : List Nat :=
  List.range' lo ((hi - lo + step - 1) / step) step

/-- The record(s) one chunk of `mem2boot` emits:
`if (erase == 0) or (addr % page): write` /
`elif erase == 1: erase + write` / `else: erase-with-data`. -/
def chunkRecs (eraseMode addr page : Nat) (data : List Nat) : List BRec :=
  if eraseMode = 0 ∨ addr % page ≠ 0 then [BRec.write addr data]
  else if eraseMode = 1 then [BRec.erase addr [], BRec.write addr data]
  else [BRec.erase addr data]

/-- The per-chunk read of `mem2boot`:
`size = min(recsize, maxaddr - addr + 1); data = ih.tobinstr(start=addr, size=size)`. -/
def chunkData (ih : Image) (recsize maxaddr addr : Nat) : List Nat :=
  tobinstr ih addr (min recsize (maxaddr - addr + 1))

/-- The body of `mem2boot`, split on the populated-address list
(`addresses = ih.addresses(); if addresses:`). -/
def mem2bootGo (ih : Image) (page eraseMode : Nat) : List Nat → List BRec
  | [] => []
  | a0 :: rest =>
    let minaddr := a0 / page * page
    let maxaddr := (a0 :: rest).getLastD 0
    let recsize := min 128 page
    let r := (pyRange minaddr (maxaddr + 1) recsize).foldl
      (fun (acc : Nat × List BRec) addr =>
        (crc16 (chunkData ih recsize maxaddr addr) acc.1,
          acc.2 ++ chunkRecs eraseMode addr page (chunkData ih recsize maxaddr addr)))
      (0, [])
    r.2 ++ [BRec.verify minaddr maxaddr r.1]

/-- `mem2boot(brec, ih, page, erase)` from the source, with the records it
writes to the sink returned as a list. -/
def mem2boot (ih : Image) (page eraseMode : Nat) : List BRec :=
  mem2bootGo ih page eraseMode (addresses ih)

/-- `erase2boot(brec, start, stop, page)` from the source. -/
def erase2boot (start stop page : Nat) : List BRec :=
  ((pyRange (start / page * page) (stop + 1) page).map fun addr => BRec.erase addr []) ++
    [BRec.verify start stop (crc16 (List.replicate (stop - start + 1) 0xFF) 0)]

/-- The session parameters `hex2boot` consumes (`args` after CLI parsing);
the hex file, when given, stands for its parsed image. -/
structure Args where
  hexfile : Option Image
  bank : Nat
  eraseMode : Nat
  id : List Nat
  lock : Option Nat
  map : Option String
  start : Nat
  top : Nat
  wait : Bool

/-- `hex2boot(brec, args)` from the source: the full record stream of one
session. `IntelHex(args.hexfile)` loads the caller's file into the local
working image `ih`; the reset-vector override mutates only that working
image, never the file. -/
def hex2boot (args : Args) : List BRec :=
  let failsafe := args.bank == 0 && args.start == 0
  let head := args.id.map BRec.ident ++ [BRec.setup 0xA5F1 args.bank]
  let body :=
    match args.hexfile with
    | some file =>
      let resetv := readByte file 0
      let ih := if failsafe && resetv != 0xFF then setByte file 0 0xFF else file
      ((get_regions args.start args.top args.map).map
          (fun r => mem2boot (sliceIH ih r.1 r.2.1) r.2.2 args.eraseMode)).flatten
        ++ (if failsafe && resetv != 0xFF then [BRec.write 0 [resetv]] else [])
    | none =>
      if args.lock = none then
        ((get_regions args.start args.top args.map).map
          (fun r => erase2boot r.1 r.2.1 r.2.2)).flatten
      else []
  let lockrecs := match args.lock with | some l => [BRec.lock l] | none => []
  let runrecs := if args.wait then [] else [BRec.runapp 0]
  head ++ body ++ lockrecs ++ runrecs

/-- Modelled from the spec: the image translator's contract stated
structurally, split on the populated-address list — walk the chunk addresses
from `low` to the last populated address in steps of `min 128 page`, emit the
per-chunk records, then exactly one `Verify(low, high, crc)` whose checksum
is the running fold of `crc16` over the chunk data; no populated address
emits nothing. -/
def mem2bootSpecGo (ih : Image) (page eraseMode : Nat) : List Nat → List BRec
  | [] => []
  | a0 :: rest =>
    let low := a0 / page * page
    let high := (a0 :: rest).getLastD 0
    let cs := min 128 page
    let chunks := pyRange low (high + 1) cs
    (chunks.map fun addr => chunkRecs eraseMode addr page (chunkData ih cs high addr)).flatten
      ++ [BRec.verify low high
            (chunks.foldl (fun c addr => crc16 (chunkData ih cs high addr) c) 0)]

/-- Modelled from the spec: the image translator's contract over the image's
populated addresses. -/
def mem2bootSpec (ih : Image) (page eraseMode : Nat) : List BRec :=
  mem2bootSpecGo ih page eraseMode (addresses ih)

/-- Concrete image: the single populated byte 0x42 at address 0. -/
def imgFS42 : Image := fun a => if a = 0 then some 0x42 else none

/-- Concrete image: the single populated byte 0x20 at address 0. -/
def imgFS20 : Image := fun a => if a = 0 then some 0x20 else none

/-- Concrete image: one populated byte 0x12 at address 0xFBFF, the inclusive
end of the default device map's single region. -/
def imgC2 : Image := fun a => if a = 0xFBFF then some 0x12 else none

/-- Session on `imgC2`: bank 1 (no failsafe), erase-with-data, no ids, no
lock, default map, full window, no wait. -/
def argsC2 : Args := ⟨some imgC2, 1, 2, [], none, none, 0, 0xFFFF, false⟩

/-! ### Bitwise helper lemmas -/

theorem xor_shiftLeft_distrib (a b n : Nat) : (a ^^^ b) <<< n = (a <<< n) ^^^ (b <<< n) := by
  apply Nat.eq_of_testBit_eq
  intro i
  simp only [Nat.testBit_shiftLeft, Nat.testBit_xor]
  cases h : decide (n ≤ i) <;> simp

theorem xor_shiftRight_distrib (a b n : Nat) : (a ^^^ b) >>> n = (a >>> n) ^^^ (b >>> n) := by
  apply Nat.eq_of_testBit_eq
  intro i
  simp [Nat.testBit_shiftRight, Nat.testBit_xor]

theorem and_shiftLeft_distrib (a b n : Nat) : (a &&& b) <<< n = (a <<< n) &&& (b <<< n) := by
  apply Nat.eq_of_testBit_eq
  intro i
  simp only [Nat.testBit_shiftLeft, Nat.testBit_and]
  cases h : decide (n ≤ i) <;> simp

theorem and_shiftRight_distrib (a b n : Nat) : (a &&& b) >>> n = (a >>> n) &&& (b >>> n) := by
  apply Nat.eq_of_testBit_eq
  intro i
  simp [Nat.testBit_shiftRight, Nat.testBit_and]

theorem and_high_of_lt {y : Nat} (hy : y < 32768) : y &&& 0x8000 = 0 := by
  have h : (0x8000 : Nat) = 2 ^ 15 := by norm_num
  apply Nat.eq_of_testBit_eq
  intro i
  simp only [Nat.testBit_and, h, Nat.testBit_two_pow, Nat.zero_testBit]
  by_cases hi : i = 15
  · subst hi
    have : y.testBit 15 = false := Nat.testBit_lt_two_pow (by norm_num at hy ⊢; omega)
    simp [this]
  · simp [Ne.symm hi]

theorem split_lowbyte (x : Nat) : x = ((x >>> 8) <<< 8) ^^^ (x &&& 0xff) := by
  apply Nat.eq_of_testBit_eq
  intro i
  have h255 : (0xff : Nat) = 2 ^ 8 - 1 := by norm_num
  simp only [Nat.testBit_xor, Nat.testBit_shiftLeft, Nat.testBit_shiftRight, Nat.testBit_and,
    h255, Nat.testBit_two_pow_sub_one]
  by_cases h : 8 ≤ i
  · have : 8 + (i - 8) = i := by omega
    simp [h, this, Nat.not_lt.mpr h]
  · simp [h, Nat.lt_of_not_le h]

/-! ### The table-driven step agrees with the bit-level reference -/

theorem refBitStep_xor_low (a y : Nat) (hy : y < 32768) :
    refBitStep (a ^^^ y) = refBitStep a ^^^ ((y <<< 1) &&& 0xffff) := by
  have hcond : (a ^^^ y) &&& 0x8000 = a &&& 0x8000 := by
    rw [Nat.and_xor_distrib_right, and_high_of_lt hy, Nat.xor_zero]
  unfold refBitStep
  rw [hcond]
  by_cases h : a &&& 0x8000 ≠ 0
  · simp only [if_pos h]
    rw [xor_shiftLeft_distrib]
    rw [Nat.xor_assoc, Nat.xor_comm (y <<< 1) 0x1021, ← Nat.xor_assoc]
    rw [Nat.and_xor_distrib_right]
  · simp only [if_neg h]
    rw [xor_shiftLeft_distrib, Nat.and_xor_distrib_right]

theorem refBits8_xor_low (a l : Nat) (hl : l < 256) :
    refBits8 (a ^^^ l) = refBits8 a ^^^ (l <<< 8) := by
  have m : ∀ k : Nat, k < 8 → ∀ x, refBitStep (x ^^^ l <<< k) = refBitStep x ^^^ l <<< (k + 1) := by
    intro k hk x
    have h2k : 2 ^ k ≤ 128 := by
      calc 2 ^ k ≤ 2 ^ 7 := Nat.pow_le_pow_right (by norm_num) (by omega)
      _ = 128 := by norm_num
    have hb : l <<< k < 32768 := by
      rw [Nat.shiftLeft_eq]
      have : l * 2 ^ k ≤ 255 * 128 := Nat.mul_le_mul (by omega) h2k
      omega
    rw [refBitStep_xor_low x (l <<< k) hb]
    congr 1
    have hs : (l <<< k) <<< 1 = l <<< (k + 1) := by
      rw [Nat.shiftLeft_add]
    rw [hs]
    have hlt : l <<< (k + 1) < 2 ^ 16 := by
      rw [Nat.shiftLeft_eq]
      have hp : 2 ^ (k + 1) ≤ 256 := by
        calc 2 ^ (k + 1) ≤ 2 ^ 8 := Nat.pow_le_pow_right (by norm_num) (by omega)
        _ = 256 := by norm_num
      have : l * 2 ^ (k + 1) ≤ 255 * 256 := Nat.mul_le_mul (by omega) hp
      norm_num
      omega
    have hmask : (0xffff : Nat) = 2 ^ 16 - 1 := by norm_num
    rw [hmask, Nat.and_pow_two_sub_one_of_lt_two_pow hlt]
  have h0 : a ^^^ l = a ^^^ l <<< 0 := by simp
  unfold refBits8
  rw [h0, m 0 (by omega), m 1 (by omega), m 2 (by omega), m 3 (by omega),
    m 4 (by omega), m 5 (by omega), m 6 (by omega), m 7 (by omega)]

theorem refBits8_decompose (x : Nat) :
    refBits8 x = tableEntryRef (x >>> 8) ^^^ ((x &&& 0xff) <<< 8) := by
  conv_lhs => rw [split_lowbyte x]
  rw [refBits8_xor_low _ _ (by
    have h255 : (0xff : Nat) = 2 ^ 8 - 1 := by norm_num
    rw [h255, Nat.and_pow_two_sub_one_eq_mod]
    exact Nat.lt_of_lt_of_le (Nat.mod_lt _ (by norm_num)) (by norm_num))]
  rfl

set_option maxRecDepth 100000 in
theorem table_entries : ∀ i, i < 256 → CRC16_XMODEM_TABLE.getD i 0 = tableEntryRef i := by decide

set_option maxRecDepth 100000 in
theorem table_getD_lt (i : Nat) : CRC16_XMODEM_TABLE.getD i 0 < 65536 := by
  have hall : ∀ x ∈ CRC16_XMODEM_TABLE, x < 65536 := by decide
  rcases h : CRC16_XMODEM_TABLE.get? i with _ | x
  · rw [List.getD_eq_getElem?_getD, ← List.get?_eq_getElem?, h]
    norm_num
  · rw [List.getD_eq_getElem?_getD, ← List.get?_eq_getElem?, h]
    exact hall x (List.get?_mem h)

theorem crcStep_lt (crc b : Nat) : crcStep crc b < 65536 := by
  unfold crcStep
  have h1 : (crc <<< 8) &&& 0xff00 ≤ 0xff00 := Nat.and_le_right
  have h2 := table_getD_lt (((crc >>> 8) &&& 0xff) ^^^ b)
  have h16 : (65536 : Nat) = 2 ^ 16 := by norm_num
  rw [h16] at h2 ⊢
  exact Nat.xor_lt_two_pow (by omega) h2

theorem crcStep_eq_refByteStep (crc b : Nat) (hc : crc < 65536) (hb : b < 256) :
    crcStep crc b = refByteStep crc b := by
  have hsh : crc >>> 8 < 256 := by
    rw [Nat.shiftRight_eq_div_pow]
    omega
  unfold refByteStep
  rw [refBits8_decompose]
  have h1 : (crc ^^^ b <<< 8) >>> 8 = (crc >>> 8) ^^^ b := by
    rw [xor_shiftRight_distrib]
    congr 1
    rw [Nat.shiftLeft_eq, Nat.shiftRight_eq_div_pow]
    exact Nat.mul_div_cancel b (by norm_num)
  have h2 : (crc ^^^ b <<< 8) &&& 0xff = crc &&& 0xff := by
    rw [Nat.and_xor_distrib_right]
    have hz : (b <<< 8) &&& 0xff = 0 := by
      have h255 : (0xff : Nat) = 2 ^ 8 - 1 := by norm_num
      rw [h255, Nat.and_pow_two_sub_one_eq_mod, Nat.shiftLeft_eq]
      simp [Nat.mul_mod_left]
    rw [hz, Nat.xor_zero]
  rw [h1, h2]
  unfold crcStep
  have h3 : (crc >>> 8) &&& 0xff = crc >>> 8 := by
    have h255 : (0xff : Nat) = 2 ^ 8 - 1 := by norm_num
    rw [h255, Nat.and_pow_two_sub_one_of_lt_two_pow (by norm_num; omega)]
  have h4 : (crc <<< 8) &&& 0xff00 = (crc &&& 0xff) <<< 8 := by
    have hf : (0xff00 : Nat) = 0xff <<< 8 := by norm_num [Nat.shiftLeft_eq]
    rw [hf, ← and_shiftLeft_distrib]
  rw [h3, h4]
  have hidx : (crc >>> 8) ^^^ b < 256 := by
    have h8 : (256 : Nat) = 2 ^ 8 := by norm_num
    rw [h8] at hsh hb ⊢
    exact Nat.xor_lt_two_pow hsh hb
  rw [table_entries _ hidx]
  exact Nat.xor_comm _ _

theorem foldl_crcStep_eq (data : List Nat) : ∀ crc, crc < 65536 → (∀ b ∈ data, b < 256) →
    data.foldl crcStep crc = data.foldl refByteStep crc ∧ data.foldl crcStep crc < 65536 := by
  induction data with
  | nil => exact fun crc hc _ => ⟨rfl, hc⟩
  | cons b l ih =>
    intro crc hc hb
    have hb0 : b < 256 := hb b (List.mem_cons_self b l)
    have hbl : ∀ x ∈ l, x < 256 := fun x hx => hb x (List.mem_cons_of_mem _ hx)
    have hstep := crcStep_eq_refByteStep crc b hc hb0
    obtain ⟨he, hl⟩ := ih (crcStep crc b) (crcStep_lt crc b) hbl
    refine ⟨?_, hl⟩
    simp only [List.foldl_cons]
    rw [he, hstep]

/-- C8: the table-driven `crc16` equals the bit-level CRC-16/XMODEM reference
(polynomial 0x1021, caller-supplied initial value, msb-first, no reflection,
no final xor) for every byte sequence and every 16-bit initial value, and on
the ASCII bytes of the digit string 1..9 with initial value 0 it returns 0x31C3. -/
theorem crc16_eq_reference (data : List Nat) (crc : Nat) (hc : crc < 65536)
    (hb : ∀ b ∈ data, b < 256) :
    crc16 data crc = crc16_ref data crc ∧
      crc16 [0x31, 0x32, 0x33, 0x34, 0x35, 0x36, 0x37, 0x38, 0x39] 0 = 0x31C3 := by
  obtain ⟨he, hl⟩ := foldl_crcStep_eq data crc hc hb
  constructor
  · unfold crc16 crc16_ref
    rw [he] at hl ⊢
    have hm : (0xffff : Nat) = 2 ^ 16 - 1 := by norm_num
    rw [hm, Nat.and_pow_two_sub_one_of_lt_two_pow (by omega)]
  · decide

/-- Witness for C8 at the standard check vector. -/
theorem crc16_eq_reference_witness :
    (0 : Nat) < 65536 ∧
      (crc16 [0x31, 0x32, 0x33, 0x34, 0x35, 0x36, 0x37, 0x38, 0x39] 0 =
          crc16_ref [0x31, 0x32, 0x33, 0x34, 0x35, 0x36, 0x37, 0x38, 0x39] 0 ∧
        crc16 [0x31, 0x32, 0x33, 0x34, 0x35, 0x36, 0x37, 0x38, 0x39] 0 = 0x31C3) :=
  ⟨by norm_num,
    crc16_eq_reference [0x31, 0x32, 0x33, 0x34, 0x35, 0x36, 0x37, 0x38, 0x39] 0
      (by norm_num) (by decide)⟩

/-! ### The running checksum is continuous across chunks -/

theorem crcStep_mask (x b : Nat) : crcStep (x &&& 0xffff) b = crcStep x b := by
  unfold crcStep
  have h1 : ((x &&& 0xffff) <<< 8) &&& 0xff00 = (x <<< 8) &&& 0xff00 := by
    have hf : (0xff00 : Nat) = 0xff <<< 8 := by norm_num [Nat.shiftLeft_eq]
    rw [hf, ← and_shiftLeft_distrib, ← and_shiftLeft_distrib, Nat.and_assoc,
      show ((0xffff : Nat) &&& 0xff) = 0xff from by decide]
  have h2 : ((x &&& 0xffff) >>> 8) &&& 0xff = (x >>> 8) &&& 0xff := by
    rw [and_shiftRight_distrib, Nat.and_assoc,
      show ((0xffff : Nat) >>> 8) &&& 0xff = 0xff from by decide]
  rw [h1, h2]

theorem foldl_crcStep_mask (l : List Nat) :
    ∀ x, (l.foldl crcStep (x &&& 0xffff)) &&& 0xffff = (l.foldl crcStep x) &&& 0xffff := by
  induction l with
  | nil =>
    intro x
    simp only [List.foldl_nil]
    rw [Nat.and_assoc, show ((0xffff : Nat) &&& 0xffff) = 0xffff from by decide]
  | cons b l ih =>
    intro x
    simp only [List.foldl_cons, crcStep_mask]

theorem crc16_chain (a b : List Nat) (c : Nat) : crc16 (a ++ b) c = crc16 b (crc16 a c) := by
  unfold crc16
  rw [List.foldl_append]
  exact (foldl_crcStep_mask b (a.foldl crcStep c)).symm

theorem crc16_chunks_fold (chunks : List (List Nat)) :
    ∀ c, chunks.foldl (fun acc ch => crc16 ch acc) (c &&& 0xffff) = crc16 chunks.flatten c := by
  induction chunks with
  | nil =>
    intro c
    simp only [List.foldl_nil, List.flatten_nil]
    rfl
  | cons ch rest ih =>
    intro c
    simp only [List.foldl_cons, List.flatten_cons]
    rw [crc16_chain ch rest.flatten c]
    have hm : crc16 ch (c &&& 0xffff) = crc16 ch c := by
      unfold crc16
      exact foldl_crcStep_mask ch c
    rw [hm]
    have : crc16 ch c = (ch.foldl crcStep c) &&& 0xffff := rfl
    rw [this, ih (ch.foldl crcStep c)]
    unfold crc16
    exact (foldl_crcStep_mask rest.flatten (ch.foldl crcStep c)).symm

/-- C9: `crc16` is a true running checksum: splitting a byte sequence at any
point and chaining the two calls gives the same result as one call over the
concatenation, and hence folding `crc16` over any chunk sequence starting
from 0 equals a single call over the flattened chunks. -/
theorem crc16_incremental :
    (∀ (a b : List Nat) (c : Nat), crc16 (a ++ b) c = crc16 b (crc16 a c)) ∧
      ∀ chunks : List (List Nat),
        chunks.foldl (fun acc ch => crc16 ch acc) 0 = crc16 chunks.flatten 0 := by
  refine ⟨crc16_chain, fun chunks => ?_⟩
  have h := crc16_chunks_fold chunks 0
  simpa using h

/-! ### Device map and region planner -/

/-- C1 counterexample: for the unknown map identifier "xx" the lookup returns
a single default region whose inclusive end is 0xFBFF, not 0xFFFF — the
default map does not span the full 16-bit address space. -/
theorem regions_default_end_not_ffff :
    ((regions (some ("xx"))).map fun r => (r.1, r.2.1)) = [((0x0000 : Nat), (0xFBFF : Nat))] ∧
      (0xFBFF : Nat) ≠ 0xFFFF := by
  constructor
  · rfl
  · decide

/-- C1 (amended): for every map identifier that is not one of the known device
families, the lookup returns (without erroring) the default single-region map
whose start is 0x0000 and whose inclusive end is 0xFBFF, at page size 512. -/
theorem regions_unknown_default (t : Option String)
    (h : t ∉ ([some ("bb2"), some ("bb50"), some ("bb51"), some ("bb52"),
      some ("sb2"), some ("ub1")] : List (Option String))) :
    regions t = [(0x0000, 0xFBFF, 512)] := by
  simp only [List.mem_cons, List.not_mem_nil, or_false] at h
  push_neg at h
  obtain ⟨h1, h2, h3, h4, h5, h6⟩ := h
  simp [regions, h1, h2, h3, h4, h5, h6]

/-- Witness for the amended C1 at a concrete unknown identifier. -/
theorem regions_unknown_default_witness :
    ((some ("xyz") : Option String) ∉ ([some ("bb2"), some ("bb50"), some ("bb51"),
        some ("bb52"), some ("sb2"), some ("ub1")] : List (Option String))) ∧
      regions (some ("xyz")) = [(0x0000, 0xFBFF, 512)] :=
  ⟨by decide, regions_unknown_default (some ("xyz")) (by decide)⟩

theorem clipRegions_eq_filterMap (org top : Nat) (l : List (Nat × Nat × Nat)) :
    clipRegions org top l = l.filterMap fun r =>
      if max org r.1 < min top r.2.1 then some (max org r.1, min top r.2.1, r.2.2)
      else none := by
  induction l with
  | nil => rfl
  | cons r rest ih =>
    obtain ⟨s, e, p⟩ := r
    simp only [clipRegions, List.filterMap_cons]
    by_cases h : max org s < min top e
    · simp [h, ih]
    · simp [h, ih]

/-- C6: for every window and map identifier the planner yields, in declared
region order, exactly the clipped tuples of the declared regions with a
strictly positive overlap; on the window [0, 0x3E00] over the bb2 map
(declared regions [0,0x3DFF,512] and [0xF800,0xFBBF,64]) it yields exactly
(0, 0x3DFF, 512). -/
theorem get_regions_plan :
    (∀ (org top : Nat) (t : Option String),
      get_regions org top t = (regions t).filterMap fun r =>
        if max org r.1 < min top r.2.1 then some (max org r.1, min top r.2.1, r.2.2)
        else none) ∧
      get_regions 0 0x3E00 (some ("bb2")) = [(0x0000, 0x3DFF, 512)] := by
  refine ⟨fun org top t => clipRegions_eq_filterMap org top (regions t), ?_⟩
  decide

/-! ### Record layouts -/

/-- C7: every record constructor emits the marker 0x24, then the length byte
(1 for the type byte plus the payload byte count), then the type code, then
the big-endian payload: Identity 0x30/len 3, Setup 0x31/len 4 (keys default
0xA5F1), Erase 0x32/len 3+data, Write 0x33/len 3+data, Verify 0x34/len 7,
Lock 0x35/len 3, RunApp 0x36/len 3 (option default 0). -/
theorem record_layouts (v bank keys addr org stop crc lockv opt : Nat) (data : List Nat)
    (hv : v < 65536) (hbank : bank < 256) (hkeys : keys < 65536) (haddr : addr < 65536)
    (horg : org < 65536) (hstop : stop < 65536) (hcrc : crc < 65536)
    (hlockv : lockv < 65536) (hopt : opt < 65536) :
    bin_ident v = [0x24, 3, 0x30, v / 256, v % 256] ∧
    bin_setup bank keys = [0x24, 4, 0x31, keys / 256, keys % 256, bank] ∧
    bin_setup bank 0xA5F1 = [0x24, 4, 0x31, 0xA5, 0xF1, bank] ∧
    bin_erase addr data = [0x24, 3 + data.length, 0x32, addr / 256, addr % 256] ++ data ∧
    bin_erase addr = [0x24, 3, 0x32, addr / 256, addr % 256] ∧
    bin_write addr data = [0x24, 3 + data.length, 0x33, addr / 256, addr % 256] ++ data ∧
    bin_verify org stop crc =
      [0x24, 7, 0x34, org / 256, org % 256, stop / 256, stop % 256, crc / 256, crc % 256] ∧
    bin_lock lockv = [0x24, 3, 0x35, lockv / 256, lockv % 256] ∧
    bin_runapp opt = [0x24, 3, 0x36, opt / 256, opt % 256] ∧
    bin_runapp 0 = [0x24, 3, 0x36, 0, 0] := by
  have hdiv : ∀ x : Nat, x < 65536 → x / 256 % 256 = x / 256 := by
    intro x hx
    exact Nat.mod_eq_of_lt (by omega)
  have hb : bank % 256 = bank := Nat.mod_eq_of_lt hbank
  refine ⟨?_, ?_, ?_, ?_, ?_, ?_, ?_, ?_, ?_, ?_⟩ <;>
    simp [bin_ident, bin_setup, bin_erase, bin_write, bin_verify, bin_lock, bin_runapp,
      u16be, hdiv v hv, hdiv keys hkeys, hdiv addr haddr, hdiv org horg, hdiv stop hstop,
      hdiv crc hcrc, hdiv lockv hlockv, hdiv opt hopt, hb]

/-- Witness for C7 at concrete field values. -/
theorem record_layouts_witness :
    bin_ident 0x1234 = [0x24, 3, 0x30, 0x1234 / 256, 0x1234 % 256] ∧
    bin_setup 7 0xA5F1 = [0x24, 4, 0x31, 0xA5F1 / 256, 0xA5F1 % 256, 7] ∧
    bin_setup 7 0xA5F1 = [0x24, 4, 0x31, 0xA5, 0xF1, 7] ∧
    bin_erase 0xBEEF [1, 2, 3] =
      [0x24, 3 + ([1, 2, 3] : List Nat).length, 0x32, 0xBEEF / 256, 0xBEEF % 256] ++ [1, 2, 3] ∧
    bin_erase 0xBEEF = [0x24, 3, 0x32, 0xBEEF / 256, 0xBEEF % 256] ∧
    bin_write 0xBEEF [1, 2, 3] =
      [0x24, 3 + ([1, 2, 3] : List Nat).length, 0x33, 0xBEEF / 256, 0xBEEF % 256] ++ [1, 2, 3] ∧
    bin_verify 0x100 0x1FF 0x31C3 =
      [0x24, 7, 0x34, 0x100 / 256, 0x100 % 256, 0x1FF / 256, 0x1FF % 256,
        0x31C3 / 256, 0x31C3 % 256] ∧
    bin_lock 0xCAFE = [0x24, 3, 0x35, 0xCAFE / 256, 0xCAFE % 256] ∧
    bin_runapp 5 = [0x24, 3, 0x36, 5 / 256, 5 % 256] ∧
    bin_runapp 0 = [0x24, 3, 0x36, 0, 0] :=
  record_layouts 0x1234 7 0xA5F1 0xBEEF 0x100 0x1FF 0x31C3 0xCAFE 5 [1, 2, 3]
    (by norm_num) (by norm_num) (by norm_num) (by norm_num) (by norm_num)
    (by norm_num) (by norm_num) (by norm_num) (by norm_num)

/-! ### Range-erase translator -/

/-- C10: for `start ≤ stop` and a positive page size, the range-erase
translator emits one Erase (no data) per page-aligned address from
`floor(start/page)*page` up to `stop` in steps of `page`, followed by exactly
one Verify over [start, stop] whose checksum is the CRC of
`stop - start + 1` bytes of 0xFF. -/
theorem erase2boot_layout (start stop page : Nat) (hss : start ≤ stop) (hp : 1 ≤ page) :
    erase2boot start stop page =
      ((List.range' (start / page * page) ((stop - start / page * page) / page + 1) page).map
          fun addr => BRec.erase addr []) ++
        [BRec.verify start stop (crc16 (List.replicate (stop - start + 1) 0xFF) 0)] := by
  unfold erase2boot pyRange
  have hle : start / page * page ≤ start := Nat.div_mul_le_self start page
  have harith : stop + 1 - start / page * page + page - 1 = stop - start / page * page + page := by
    omega
  rw [harith, Nat.add_div_right _ (by omega)]

/-- Witness for C10 at the spec's concrete example. -/
theorem erase2boot_layout_witness :
    (0 : Nat) ≤ 511 ∧ (1 : Nat) ≤ 512 ∧
      erase2boot 0 511 512 =
        [BRec.erase 0 [], BRec.verify 0 511 (crc16 (List.replicate 512 0xFF) 0)] := by
  refine ⟨by norm_num, by norm_num, ?_⟩
  rw [erase2boot_layout 0 511 512 (by norm_num) (by norm_num)]
  rfl

/-! ### Image translator structure -/

theorem mem2boot_fold (ih : Image) (page eraseMode recsize maxaddr : Nat) (l : List Nat) :
    ∀ (c : Nat) (rs : List BRec),
      l.foldl
          (fun (acc : Nat × List BRec) addr =>
            (crc16 (chunkData ih recsize maxaddr addr) acc.1,
              acc.2 ++ chunkRecs eraseMode addr page (chunkData ih recsize maxaddr addr)))
          (c, rs) =
        (l.foldl (fun c addr => crc16 (chunkData ih recsize maxaddr addr) c) c,
          rs ++ (l.map fun addr =>
            chunkRecs eraseMode addr page (chunkData ih recsize maxaddr addr)).flatten) := by
  induction l with
  | nil => intro c rs; simp
  | cons a l ih2 =>
    intro c rs
    simp only [List.foldl_cons, List.map_cons, List.flatten_cons]
    rw [ih2]
    simp [List.append_assoc]

theorem mem2boot_eq_spec_aux (ih : Image) (page eraseMode : Nat) :
    mem2boot ih page eraseMode = mem2bootSpec ih page eraseMode := by
  unfold mem2boot mem2bootSpec
  cases haddr : addresses ih with
  | nil => rfl
  | cons a0 rest =>
    simp only [mem2bootGo, mem2bootSpecGo]
    rw [mem2boot_fold]
    simp

/-- C5: the image translator walks the chunk addresses from
`floor(first_populated/page)*page` to the last populated address in steps of
`min 128 page`, emitting per chunk a single Write (erase mode 0 or unaligned
address), Erase-then-Write (mode 1, aligned), or a single Erase carrying the
data (mode 2, aligned), followed by exactly one Verify record carrying the
running checksum; an image view with no populated address emits nothing. -/
theorem mem2boot_structure (ih : Image) (page eraseMode : Nat) :
    (addresses ih = [] → mem2boot ih page eraseMode = []) ∧
      mem2boot ih page eraseMode = mem2bootSpec ih page eraseMode := by
  refine ⟨fun h => ?_, mem2boot_eq_spec_aux ih page eraseMode⟩
  unfold mem2boot
  rw [h]
  rfl

/-- Witness for C5 at a concrete image. -/
theorem mem2boot_structure_witness :
    (addresses imgFS20 = [] → mem2boot imgFS20 512 2 = []) ∧
      mem2boot imgFS20 512 2 = mem2bootSpec imgFS20 512 2 :=
  mem2boot_structure imgFS20 512 2

theorem tobinstr_headD (ih : Image) (a sz : Nat) (h : 0 < sz) :
    (tobinstr ih a sz).headD 0 = readByte ih a := by
  unfold tobinstr
  cases sz with
  | zero => omega
  | succ n =>
    rw [List.range_succ_eq_map]
    simp

theorem tobinstr_ne_nil_iff (ih : Image) (a sz : Nat) : tobinstr ih a sz ≠ [] ↔ 0 < sz := by
  unfold tobinstr
  cases sz with
  | zero => simp
  | succ n => simp [List.range_succ_eq_map]

/-- Every Write/Erase record `mem2boot` emits carries either no data or a
`tobinstr` read starting at the record's own address. -/
theorem mem2boot_record_shape (ih : Image) (page eraseMode : Nat) (r : BRec)
    (hr : r ∈ mem2boot ih page eraseMode) :
    (∃ o s c, r = BRec.verify o s c) ∨
      ∃ addr sz, r = BRec.write addr (tobinstr ih addr sz) ∨
        r = BRec.erase addr [] ∨ r = BRec.erase addr (tobinstr ih addr sz) := by
  rw [mem2boot_eq_spec_aux ih page eraseMode] at hr
  unfold mem2bootSpec at hr
  cases haddr : addresses ih with
  | nil =>
    rw [haddr] at hr
    simp [mem2bootSpecGo] at hr
  | cons a0 rest =>
    rw [haddr] at hr
    simp only [mem2bootSpecGo] at hr
    rcases List.mem_append.mp hr with hm | hm
    · rcases List.mem_flatten.mp hm with ⟨l2, hl2, hrl⟩
      rcases List.mem_map.mp hl2 with ⟨addr, haddr2, rfl⟩
      simp only [chunkRecs, chunkData] at hrl
      split_ifs at hrl with h1 h2
      · right
        exact ⟨addr, _, Or.inl (List.mem_singleton.mp hrl)⟩
      · rcases List.mem_cons.mp hrl with hc | hc
        · right
          exact ⟨addr, min (min 128 page) ((a0 :: rest).getLastD 0 - addr + 1),
            Or.inr (Or.inl hc)⟩
        · right
          exact ⟨addr, _, Or.inl (List.mem_singleton.mp hc)⟩
      · right
        exact ⟨addr, _, Or.inr (Or.inr (List.mem_singleton.mp hrl))⟩
    · left
      rcases List.mem_singleton.mp hm with rfl
      exact ⟨_, _, _, rfl⟩

theorem readByte_view_zero (f : Image) (s e : Nat) :
    readByte (sliceIH (setByte f 0 0xFF) s e) 0 = 0xFF := by
  unfold readByte sliceIH setByte
  split_ifs with h1 h2
  · rfl
  · exact absurd rfl h2
  · rfl

/-- In a translation over any window of the override view, a Write/Erase
record at address 0 with data carries 0xFF as its first byte. -/
theorem mem2boot_view_zero_byte (f : Image) (s e page eraseMode : Nat) (d : List Nat)
    (hw : BRec.write 0 d ∈ mem2boot (sliceIH (setByte f 0 0xFF) s e) page eraseMode ∨
      BRec.erase 0 d ∈ mem2boot (sliceIH (setByte f 0 0xFF) s e) page eraseMode)
    (hd : d ≠ []) : d.headD 0 = 0xFF := by
  have hshape : ∃ sz, d = tobinstr (sliceIH (setByte f 0 0xFF) s e) 0 sz := by
    rcases hw with hw | hw
    · rcases mem2boot_record_shape _ _ _ _ hw with ⟨_, _, _, h⟩ | ⟨addr, sz, h | h | h⟩
      · exact absurd h (by simp)
      · injection h with ha hdata
        exact ⟨sz, by rw [hdata, ← ha]⟩
      · exact absurd h (by simp)
      · exact absurd h (by simp)
    · rcases mem2boot_record_shape _ _ _ _ hw with ⟨_, _, _, h⟩ | ⟨addr, sz, h | h | h⟩
      · exact absurd h (by simp)
      · exact absurd h (by simp)
      · injection h with ha hdata
        exact absurd hdata hd
      · injection h with ha hdata
        exact ⟨sz, by rw [hdata, ← ha]⟩
  obtain ⟨sz, rfl⟩ := hshape
  have hsz : 0 < sz := (tobinstr_ne_nil_iff _ _ _).mp hd
  rw [tobinstr_headD _ _ _ hsz, readByte_view_zero]

/-- The session stream under the failsafe override, fully unfolded: the
identity and setup records, the main translation over slices of the working
view `setByte f 0 0xFF`, the restore Write carrying the original byte `v`,
then the lock and run-app tail. -/
theorem hex2boot_failsafe_eq (f : Image) (v eraseMode : Nat) (ids : List Nat)
    (lockv : Option Nat) (mapid : Option String) (top : Nat) (wait : Bool)
    (hv : f 0 = some v) (hne : v ≠ 0xFF) :
    hex2boot ⟨some f, 0, eraseMode, ids, lockv, mapid, 0, top, wait⟩ =
      ids.map BRec.ident ++ [BRec.setup 0xA5F1 0] ++
        ((get_regions 0 top mapid).map
          (fun r => mem2boot (sliceIH (setByte f 0 0xFF) r.1 r.2.1) r.2.2 eraseMode)).flatten ++
        [BRec.write 0 [v]] ++
        (match lockv with | some l => [BRec.lock l] | none => []) ++
        (if wait then [] else [BRec.runapp 0]) := by
  have hrv : readByte f 0 = v := by simp [readByte, hv]
  have hb : (v != 0xFF) = true := by simp [hne]
  unfold hex2boot
  simp only [hrv, hb, Bool.and_true, beq_self_eq_true, Bool.and_self, if_true, List.append_assoc]

/-- C3: with an image supplied, bank 0, window start 0 and a non-0xFF byte at
address 0, the reset-vector override to 0xFF is applied only to the working
view `setByte f 0 0xFF` used for translation, the restore record carries the
original byte, and the caller's supplied image still holds its original
value at address 0 after the session. -/
theorem failsafe_view_isolation (f : Image) (v eraseMode : Nat) (ids : List Nat)
    (lockv : Option Nat) (mapid : Option String) (top : Nat) (wait : Bool)
    (hv : f 0 = some v) (hne : v ≠ 0xFF) :
    hex2boot ⟨some f, 0, eraseMode, ids, lockv, mapid, 0, top, wait⟩ =
        ids.map BRec.ident ++ [BRec.setup 0xA5F1 0] ++
          ((get_regions 0 top mapid).map
            (fun r => mem2boot (sliceIH (setByte f 0 0xFF) r.1 r.2.1) r.2.2 eraseMode)).flatten ++
          [BRec.write 0 [v]] ++
          (match lockv with | some l => [BRec.lock l] | none => []) ++
          (if wait then [] else [BRec.runapp 0]) ∧
      setByte f 0 0xFF 0 = some 0xFF ∧ f 0 = some v :=
  ⟨hex2boot_failsafe_eq f v eraseMode ids lockv mapid top wait hv hne, by simp [setByte], hv⟩

/-- Witness for C3 at a concrete session. -/
theorem failsafe_view_isolation_witness :
    imgFS42 0 = some 0x42 ∧ (0x42 : Nat) ≠ 0xFF ∧
      (hex2boot ⟨some imgFS42, 0, 1, [3], some 5, some ("bb2"), 0, 0xFFFF, true⟩ =
          [3].map BRec.ident ++ [BRec.setup 0xA5F1 0] ++
            ((get_regions 0 0xFFFF (some ("bb2"))).map
              (fun r => mem2boot (sliceIH (setByte imgFS42 0 0xFF) r.1 r.2.1) r.2.2 1)).flatten ++
            [BRec.write 0 [0x42]] ++ [BRec.lock 5] ++ [] ∧
        setByte imgFS42 0 0xFF 0 = some 0xFF ∧ imgFS42 0 = some 0x42) :=
  ⟨rfl, by decide,
    failsafe_view_isolation imgFS42 0x42 1 [3] (some 5) (some ("bb2")) 0xFFFF true rfl (by decide)⟩

/-- C4: with an image supplied, bank 0, window start 0 and byte 0x20 at
address 0, every Write/Erase record of the main translation covering address
0 carries 0xFF at the offset of address 0, and exactly one Write record of
address 0 with the single byte 0x20 is emitted, after all regions and as the
last record before the Lock/RunApp tail. -/
theorem failsafe_restore_unique (f : Image) (eraseMode : Nat) (ids : List Nat)
    (lockv : Option Nat) (mapid : Option String) (top : Nat) (wait : Bool)
    (h0 : f 0 = some 0x20) :
    ∃ pre post,
      hex2boot ⟨some f, 0, eraseMode, ids, lockv, mapid, 0, top, wait⟩ =
          pre ++ [BRec.write 0 [0x20]] ++ post ∧
        (∀ r ∈ post, (∃ l, r = BRec.lock l) ∨ ∃ o, r = BRec.runapp o) ∧
        (∀ a d, BRec.write a d ∈ pre → a = 0 → d ≠ [] → d.headD 0 = 0xFF) ∧
        (∀ a d, BRec.erase a d ∈ pre → a = 0 → d ≠ [] → d.headD 0 = 0xFF) ∧
        BRec.write 0 [0x20] ∉ pre ∧ BRec.write 0 [0x20] ∉ post := by
  refine ⟨ids.map BRec.ident ++ [BRec.setup 0xA5F1 0] ++
      ((get_regions 0 top mapid).map
        (fun r => mem2boot (sliceIH (setByte f 0 0xFF) r.1 r.2.1) r.2.2 eraseMode)).flatten,
    (match lockv with | some l => [BRec.lock l] | none => []) ++
      (if wait then [] else [BRec.runapp 0]), ?_, ?_, ?_, ?_, ?_, ?_⟩
  · rw [hex2boot_failsafe_eq f 0x20 eraseMode ids lockv mapid top wait h0 (by decide)]
    simp [List.append_assoc]
  · intro r hr
    rcases List.mem_append.mp hr with hm | hm
    · cases lockv with
      | none => simp at hm
      | some l => exact Or.inl ⟨l, List.mem_singleton.mp hm⟩
    · cases wait with
      | true => simp at hm
      | false => exact Or.inr ⟨0, List.mem_singleton.mp hm⟩
  · intro a d hmem ha hd
    subst ha
    rcases List.mem_append.mp hmem with hm | hm
    · rcases List.mem_append.mp hm with hm2 | hm2
      · rcases List.mem_map.mp hm2 with ⟨x, _, hx⟩
        exact absurd hx (by simp)
      · exact absurd (List.mem_singleton.mp hm2) (by simp)
    · rcases List.mem_flatten.mp hm with ⟨l2, hl2, hrl⟩
      rcases List.mem_map.mp hl2 with ⟨reg, hreg, rfl⟩
      exact mem2boot_view_zero_byte f reg.1 reg.2.1 reg.2.2 eraseMode d (Or.inl hrl) hd
  · intro a d hmem ha hd
    subst ha
    rcases List.mem_append.mp hmem with hm | hm
    · rcases List.mem_append.mp hm with hm2 | hm2
      · rcases List.mem_map.mp hm2 with ⟨x, _, hx⟩
        exact absurd hx (by simp)
      · exact absurd (List.mem_singleton.mp hm2) (by simp)
    · rcases List.mem_flatten.mp hm with ⟨l2, hl2, hrl⟩
      rcases List.mem_map.mp hl2 with ⟨reg, hreg, rfl⟩
      exact mem2boot_view_zero_byte f reg.1 reg.2.1 reg.2.2 eraseMode d (Or.inr hrl) hd
  · intro hmem
    rcases List.mem_append.mp hmem with hm | hm
    · rcases List.mem_append.mp hm with hm2 | hm2
      · rcases List.mem_map.mp hm2 with ⟨x, _, hx⟩
        exact absurd hx (by simp)
      · exact absurd (List.mem_singleton.mp hm2) (by simp)
    · rcases List.mem_flatten.mp hm with ⟨l2, hl2, hrl⟩
      rcases List.mem_map.mp hl2 with ⟨reg, hreg, rfl⟩
      have hbyte := mem2boot_view_zero_byte f reg.1 reg.2.1 reg.2.2 eraseMode [0x20]
        (Or.inl hrl) (by simp)
      simp at hbyte
  · intro hmem
    rcases List.mem_append.mp hmem with hm | hm
    · cases lockv with
      | none => simp at hm
      | some l => exact absurd (List.mem_singleton.mp hm) (by simp)
    · cases wait with
      | true => simp at hm
      | false => exact absurd (List.mem_singleton.mp hm) (by simp)

/-- Witness for C4 at a concrete session. -/
theorem failsafe_restore_unique_witness :
    imgFS20 0 = some 0x20 ∧
      ∃ pre post,
        hex2boot ⟨some imgFS20, 0, 2, [], none, none, 0, 0xFFFF, false⟩ =
            pre ++ [BRec.write 0 [0x20]] ++ post ∧
          (∀ r ∈ post, (∃ l, r = BRec.lock l) ∨ ∃ o, r = BRec.runapp o) ∧
          (∀ a d, BRec.write a d ∈ pre → a = 0 → d ≠ [] → d.headD 0 = 0xFF) ∧
          (∀ a d, BRec.erase a d ∈ pre → a = 0 → d ≠ [] → d.headD 0 = 0xFF) ∧
          BRec.write 0 [0x20] ∉ pre ∧ BRec.write 0 [0x20] ∉ post :=
  ⟨rfl, failsafe_restore_unique imgFS20 2 [] none none 0xFFFF false rfl⟩

/-- C2 evidence: the default map's clipped region is (0, 0xFBFF, 512) with
inclusive end 0xFBFF, yet the image view handed to the translator
(`ih[slice(start, stop)]`, half-open upper bound) drops the populated byte
at the region end: for an image populated exactly at 0xFBFF the session
emits no Write/Erase/Verify record at all, so the byte at the inclusive end
is neither traversed, checksummed, nor written. -/
theorem region_end_byte_dropped :
    imgC2 0xFBFF = some 0x12 ∧
      get_regions 0 0xFFFF none = [(0x0000, 0xFBFF, 512)] ∧
      sliceIH imgC2 0x0000 0xFBFF 0xFBFF = none ∧
      hex2boot argsC2 = [BRec.setup 0xA5F1 1, BRec.runapp 0] := by
  refine ⟨rfl, by decide, by simp [sliceIH, imgC2], ?_⟩
  have hslice : addresses (sliceIH imgC2 0 0xFBFF) = [] := by
    unfold addresses
    rw [List.filter_eq_nil_iff]
    intro a ha
    simp only [sliceIH, imgC2]
    split_ifs with h1 h2
    · exact absurd h2 (by omega)
    · simp
    · simp
  have hreg : get_regions 0 0xFFFF none = [(0x0000, 0xFBFF, 512)] := by decide
  have hmem : mem2boot (sliceIH imgC2 0 0xFBFF) 512 2 = [] := by
    unfold mem2boot
    rw [hslice]
    rfl
  unfold hex2boot argsC2
  simp [hreg, hmem]

end Hex2boot
